import Mathlib

/-!
Verification of the framed-message channel implemented by
`src/native/test-host.py` and the process wrapper `src/native/host-wrapper.py`.

The development shallowly embeds the Python code:

* `dumps` models `json.dumps(message)` with CPython's defaults
  (`ensure_ascii=True`, separators `", "` and `": "`, insertion-ordered keys);
* `utf8Encode` / `utf8Decode` model `str.encode('utf-8')` and
  `bytes.decode('utf-8')` (strict, rejecting malformed sequences);
* `loads` models `json.loads` (a recursive-descent scanner over the decoded
  characters, whitespace-tolerant, duplicate object keys resolved last-wins);
* `sendMessage` models `send_message` (lines 10-14): a 4-byte little-endian
  length followed by the UTF-8 JSON payload — `struct.pack('I', n)` on the
  little-endian hosts the script runs on, failing (`struct.error`) for
  `n ≥ 2^32`;
* `decodeFrame` and `readLoopF` model one iteration, respectively the whole,
  of the `while True` read loop (lines 23-38), including the
  `data.get("id")` reply and the catch-all `except` that breaks the loop;
* `wrapperExitCode` models `host-wrapper.py`.

Restrictions of the embedding, stated once here: JSON numbers are embedded as
integers (`Int`) — payloads using floating-point syntax (`1.5`, `1e3`, `NaN`,
`Infinity`) are outside the model, and the scanner treats them as failures;
strings are Unicode scalar values (`Char`), so the lone-surrogate escapes that
CPython tolerates are likewise treated as scan failures.  No claim under
verification exercises either corner.
-/

/-- A JSON-serializable value as `test-host.py` manipulates them: the image of
Python `None` / `bool` / `int` / `str` / `list` / `dict` under `json.dumps`.
Object members are kept in insertion order, as CPython dicts do. -/
inductive Json where
  | null
  | bool (b : Bool)
  | num (n : Int)
  | str (s : List Char)
  | arr (xs : List Json)
  | obj (kvs : List (List Char × Json))

/-- The values that actually arise from Python objects: every `dict` has
pairwise-distinct keys (a Python `dict` cannot hold a duplicate key). -/
inductive WellFormed : Json → Prop where
  | null : WellFormed .null
  | bool (b : Bool) : WellFormed (.bool b)
  | num (n : Int) : WellFormed (.num n)
  | str (s : List Char) : WellFormed (.str s)
  | arr (xs : List Json) (h : ∀ x ∈ xs, WellFormed x) : WellFormed (.arr xs)
  | obj (kvs : List (List Char × Json)) (hk : (kvs.map Prod.fst).Nodup)
      (hv : ∀ kv ∈ kvs, WellFormed kv.2) : WellFormed (.obj kvs)

/-- Decimal digit character for `d < 10`. -/
def digitChar (d : Nat) : Char := Char.ofNat (48 + d)

/-- Lowercase hexadecimal digit character for `d < 16`, as CPython's
`ensure_ascii` escaping emits. -/
def hexChar (d : Nat) : Char := if d < 10 then Char.ofNat (48 + d) else Char.ofNat (87 + d)

/-- The six-character escape `\uXXXX` of a code unit `n < 0x10000`. -/
def escU (n : Nat) : List Char :=
  ['\\', 'u', hexChar (n / 4096 % 16), hexChar (n / 256 % 16), hexChar (n / 16 % 16),
    hexChar (n % 16)]

/-- How `json.dumps` (with its default `ensure_ascii=True`) writes one string
character: the named two-character escapes, `\u00XX` for other control
characters, `\uXXXX` (a surrogate pair beyond the BMP) for every character
above `0x7E`, and the character itself for printable ASCII. -/
def escapeChar (c : Char) : List Char :=
  if c = '"' then ['\\', '"']
  else if c = '\\' then ['\\', '\\']
  else if c.toNat = 8 then ['\\', 'b']
  else if c.toNat = 9 then ['\\', 't']
  else if c.toNat = 10 then ['\\', 'n']
  else if c.toNat = 12 then ['\\', 'f']
  else if c.toNat = 13 then ['\\', 'r']
  else if c.toNat < 32 ∨ 127 ≤ c.toNat then
    if c.toNat < 65536 then escU c.toNat
    else escU (55296 + (c.toNat - 65536) / 1024) ++ escU (56320 + (c.toNat - 65536) % 1024)
  else [c]

/-- The JSON text of a string: quote, escaped characters, quote. -/
def dumpsStr (s : List Char) : List Char :=
  '"' :: ((s.map escapeChar).flatten ++ ['"'])

/-- Decimal digits of `n`, least significant first (empty for `0`). -/
def natDigitsRev (n : Nat) : List Nat :=
  if h : n = 0 then [] else (n % 10) :: natDigitsRev (n / 10)
termination_by n
decreasing_by exact Nat.div_lt_self (Nat.pos_of_ne_zero h) (by omega)

/-- Decimal notation of a natural number, most significant digit first. -/
def natToChars (n : Nat) : List Char :=
  if n = 0 then ['0'] else ((natDigitsRev n).reverse).map digitChar

/-- Decimal notation of an integer, as Python `repr`/`json.dumps` writes it. -/
def intToChars (i : Int) : List Char :=
  if i < 0 then '-' :: natToChars i.natAbs else natToChars i.natAbs

mutual

/-- The characters `json.dumps(v)` produces, with CPython's default separators
`", "` and `": "` and insertion-ordered keys. -/
def dumps : Json → List Char
  | .bool b => if b then ['t', 'r', 'u', 'e'] else ['f', 'a', 'l', 's', 'e']
  | .null => ['n', 'u', 'l', 'l']
  | .num i => intToChars i
  | .str s => dumpsStr s
  | .arr [] => ['[', ']']
  | .arr (x :: xs) => '[' :: (dumpsElems x xs ++ [']'])
  | .obj [] => ['{', '}']
  | .obj (kv :: kvs) => '{' :: (dumpsMembers kv kvs ++ ['}'])
termination_by v => sizeOf v
decreasing_by all_goals (simp_wf; try omega)

/-- The comma-space separated renderings of a nonempty element list. -/
def dumpsElems : Json → List Json → List Char
  | x, [] => dumps x
  | x, y :: ys => dumps x ++ ',' :: ' ' :: dumpsElems y ys
termination_by x xs => sizeOf x + sizeOf xs
decreasing_by all_goals (simp_wf; try omega)

/-- The comma-space separated renderings of a nonempty member list, each
member as `"key": value`. -/
def dumpsMembers : (List Char × Json) → List (List Char × Json) → List Char
  | (k, v), [] => dumpsStr k ++ ':' :: ' ' :: dumps v
  | (k, v), kv :: kvs => dumpsStr k ++ ':' :: ' ' :: dumps v ++ ',' :: ' ' :: dumpsMembers kv kvs
termination_by kv kvs => sizeOf kv + sizeOf kvs
decreasing_by all_goals (simp_wf; try omega)

end

/-- The whitespace characters the `json` scanner skips: space, tab, newline,
carriage return. -/
def isWs (c : Char) : Bool := c == ' ' || c == '\t' || c == '\n' || c == '\r'

/-- Drop the scanner whitespace at the head of the input. -/
def skipWs : List Char → List Char
  | [] => []
  | c :: r => if isWs c then skipWs r else c :: r

/-- An ASCII decimal digit. -/
def isDigit (c : Char) : Bool := 48 ≤ c.toNat && c.toNat ≤ 57

/-- Split off the maximal run of decimal digits at the head of the input. -/
def takeDigits : List Char → List Char × List Char
  | [] => ([], [])
  | c :: r =>
    if isDigit c then
      let p := takeDigits r
      (c :: p.1, p.2)
    else ([], c :: r)

/-- The value of a most-significant-first digit string. -/
def digitsVal (ds : List Char) : Nat := ds.foldl (fun a c => a * 10 + (c.toNat - 48)) 0

/-- The remainder begins with a fractional part (`.` and at least one digit),
so the regular expression behind `json` would have matched a float. -/
def startsFrac : List Char → Bool
  | c :: d :: _ => c == '.' && isDigit d
  | _ => false

/-- The remainder begins with an exponent part (`e`/`E`, optional sign, at
least one digit). -/
def startsExp : List Char → Bool
  | [] => false
  | c :: r =>
    if c = 'e' ∨ c = 'E' then
      match r with
      | '+' :: d :: _ => isDigit d
      | '-' :: d :: _ => isDigit d
      | d :: _ => isDigit d
      | [] => false
    else false

/-- The integer part of a JSON number per the scanner's regular expression —
a single `0`, or a nonzero digit followed by any digits — rejecting inputs
where a fraction or exponent follows, since those denote Python floats, which
the embedding does not cover. -/
def parseUInt (s : List Char) : Option (Nat × List Char) :=
  match s with
  | [] => none
  | c :: r =>
    if c = '0' then
      if startsFrac r ∨ startsExp r then none else some (0, r)
    else if isDigit c then
      let p := takeDigits r
      if startsFrac p.2 ∨ startsExp p.2 then none else some (digitsVal (c :: p.1), p.2)
    else none

/-- A JSON number: optional minus sign, then the integer part. -/
def parseNum (s : List Char) : Option (Json × List Char) :=
  match s with
  | [] => none
  | c :: r =>
    if c = '-' then (parseUInt r).map (fun p => (.num (-(p.1 : Int)), p.2))
    else (parseUInt (c :: r)).map (fun p => (.num (p.1 : Int), p.2))

/-- The value of one hexadecimal digit character, either case. -/
def hexVal (c : Char) : Option Nat :=
  if 48 ≤ c.toNat ∧ c.toNat ≤ 57 then some (c.toNat - 48)
  else if 97 ≤ c.toNat ∧ c.toNat ≤ 102 then some (c.toNat - 87)
  else if 65 ≤ c.toNat ∧ c.toNat ≤ 70 then some (c.toNat - 55)
  else none

/-- The value of a four-digit hexadecimal escape body. -/
def hex4 (a b c d : Char) : Option Nat :=
  match hexVal a, hexVal b, hexVal c, hexVal d with
  | some va, some vb, some vc, some vd => some (((va * 16 + vb) * 16 + vc) * 16 + vd)
  | _, _, _, _ => none

/-- One escape sequence after a backslash, as `py_scanstring` handles it in
strict mode: the named single-character escapes and `\\uXXXX` escapes with
surrogate-pair combination.  Returns the character it denotes and how many
input characters the escape body occupied.  Deviation from CPython, per the
header note: a lone surrogate escape is a scan failure here, because `Char`
has no lone surrogates to carry. -/
def readEscape : List Char → Option (Char × Nat)
  | [] => none
  | e :: r =>
    if e = '"' then some ('"', 1)
    else if e = '\\' then some ('\\', 1)
    else if e = '/' then some ('/', 1)
    else if e = 'b' then some (Char.ofNat 8, 1)
    else if e = 'f' then some (Char.ofNat 12, 1)
    else if e = 'n' then some (Char.ofNat 10, 1)
    else if e = 'r' then some (Char.ofNat 13, 1)
    else if e = 't' then some (Char.ofNat 9, 1)
    else if e = 'u' then
      match r with
      | a :: b :: c :: d :: r2 =>
        match hex4 a b c d with
        | none => none
        | some n =>
          if n < 55296 ∨ 57344 ≤ n then some (Char.ofNat n, 5)
          else if n < 56320 then
            match r2 with
            | e2 :: u2 :: a2 :: b2 :: c2 :: d2 :: _ =>
              if e2 = '\\' ∧ u2 = 'u' then
                match hex4 a2 b2 c2 d2 with
                | none => none
                | some m =>
                  if 56320 ≤ m ∧ m < 57344 then
                    some (Char.ofNat (65536 + (n - 55296) * 1024 + (m - 56320)), 11)
                  else none
              else none
            | _ => none
          else none
      | _ => none
    else none

/-- The body of a JSON string after its opening quote, as `py_scanstring`
reads it in strict mode: literal characters above `0x1F`, and escapes via
`readEscape`.  Returns the string and the input after the closing quote. -/
def parseString : List Char → Option (List Char × List Char)
  | [] => none
  | c :: r =>
    if c = '"' then some ([], r)
    else if c = '\\' then
      match readEscape r with
      | none => none
      | some (ch, k) => (parseString (r.drop k)).map (fun p => (ch :: p.1, p.2))
    else if c.toNat < 32 then none
    else (parseString r).map (fun p => (c :: p.1, p.2))
termination_by s => s.length
decreasing_by all_goals (simp_wf; try omega)

/-- One assignment into a CPython dict rendered as an ordered association
list: an existing key keeps its position and takes the new value, a new key
is appended. -/
def dictInsert : List (List Char × Json) → List Char → Json → List (List Char × Json)
  | [], k, v => [(k, v)]
  | (k0, v0) :: t, k, v =>
    if k0 = k then (k0, v) :: t else (k0, v0) :: dictInsert t k v

/-- The dict the scanner builds from the parsed member list, assigning each
pair in order, so a duplicate key keeps its first position and last value. -/
def buildDict (ps : List (List Char × Json)) : List (List Char × Json) :=
  ps.foldl (fun d p => dictInsert d p.1 p.2) []

/-- Whether the scanner hands this input to its number branch. -/
def startsNum : List Char → Bool
  | [] => false
  | c :: _ => c = '-' || isDigit c

mutual

/-- One JSON value at the head of the (already whitespace-stripped) input,
dispatching exactly as CPython's `scan_once`: the `null` / `true` / `false`
literals, strings, arrays, objects, and numbers.  The `fuel` argument only
bounds nesting so the definition is total; every theorem supplies enough. -/
def parseValue : Nat → List Char → Option (Json × List Char)
  | 0, _ => none
  | fuel + 1, s =>
    match s with
    | 'n' :: 'u' :: 'l' :: 'l' :: r => some (.null, r)
    | 't' :: 'r' :: 'u' :: 'e' :: r => some (.bool true, r)
    | 'f' :: 'a' :: 'l' :: 's' :: 'e' :: r => some (.bool false, r)
    | '"' :: r => (parseString r).map (fun p => (.str p.1, p.2))
    | '[' :: r =>
      match skipWs r with
      | [] => none
      | c1 :: r1 =>
        if c1 = ']' then some (.arr [], r1)
        else (parseElems fuel (c1 :: r1)).map (fun p => (.arr p.1, p.2))
    | '{' :: r =>
      match skipWs r with
      | [] => none
      | c1 :: r1 =>
        if c1 = '}' then some (.obj [], r1)
        else (parseMembers fuel (c1 :: r1)).map (fun p => (.obj (buildDict p.1), p.2))
    | s => if startsNum s then parseNum s else none

/-- One or more comma-separated array elements followed by `]`, as
`JSONArray` reads them. -/
def parseElems : Nat → List Char → Option (List Json × List Char)
  | 0, _ => none
  | fuel + 1, s =>
    match parseValue fuel s with
    | none => none
    | some (v, r) =>
      match skipWs r with
      | ',' :: r1 => (parseElems fuel (skipWs r1)).map (fun p => (v :: p.1, p.2))
      | ']' :: r1 => some ([v], r1)
      | _ => none

/-- One or more comma-separated `"key": value` members followed by `}`, as
`JSONObject` reads them in strict mode. -/
def parseMembers : Nat → List Char → Option (List (List Char × Json) × List Char)
  | 0, _ => none
  | fuel + 1, s =>
    match s with
    | '"' :: r =>
      match parseString r with
      | none => none
      | some (k, r1) =>
        match skipWs r1 with
        | ':' :: r2 =>
          match parseValue fuel (skipWs r2) with
          | none => none
          | some (v, r3) =>
            match skipWs r3 with
            | ',' :: r4 => (parseMembers fuel (skipWs r4)).map (fun p => ((k, v) :: p.1, p.2))
            | '}' :: r4 => some ([(k, v)], r4)
            | _ => none
        | _ => none
    | _ => none

end

/-- The model of `json.loads` on already-decoded text: strip surrounding
whitespace, scan exactly one value, and reject trailing garbage.  `none` is a
raised `JSONDecodeError`. -/
def loads (s : List Char) : Option Json :=
  let s1 := skipWs s
  match parseValue (s1.length + 1) s1 with
  | none => none
  | some (v, r) => if skipWs r = [] then some v else none

/-- The UTF-8 bytes of one character, as `str.encode('utf-8')` produces them. -/
def utf8EncodeChar (c : Char) : List Nat :=
  let n := c.toNat
  if n < 128 then [n]
  else if n < 2048 then [192 + n / 64, 128 + n % 64]
  else if n < 65536 then [224 + n / 4096, 128 + n / 64 % 64, 128 + n % 64]
  else [240 + n / 262144, 128 + n / 4096 % 64, 128 + n / 64 % 64, 128 + n % 64]

/-- The model of `str.encode('utf-8')`. -/
def utf8Encode (s : List Char) : List Nat := (s.map utf8EncodeChar).flatten

/-- A two-byte UTF-8 sequence: the code point, if the continuation byte is in
range (lead bytes below `0xC2` were already rejected, so no overlong forms
arise here). -/
def utf8Cont2 (b1 b2 : Nat) : Option Nat :=
  if 128 ≤ b2 ∧ b2 < 192 then some ((b1 - 192) * 64 + (b2 - 128)) else none

/-- A three-byte UTF-8 sequence: the code point, if the continuation bytes
are in range — the first one narrowed for `0xE0` (overlong) and `0xED`
(surrogates), exactly as CPython's strict decoder does. -/
def utf8Cont3 (b1 b2 b3 : Nat) : Option Nat :=
  if (if b1 = 224 then 160 ≤ b2 ∧ b2 < 192
      else if b1 = 237 then 128 ≤ b2 ∧ b2 < 160
      else 128 ≤ b2 ∧ b2 < 192) ∧ 128 ≤ b3 ∧ b3 < 192 then
    some ((b1 - 224) * 4096 + (b2 - 128) * 64 + (b3 - 128))
  else none

/-- A four-byte UTF-8 sequence: the code point, if the continuation bytes
are in range — the first one narrowed for `0xF0` (overlong) and `0xF4`
(beyond `0x10FFFF`). -/
def utf8Cont4 (b1 b2 b3 b4 : Nat) : Option Nat :=
  if (if b1 = 240 then 144 ≤ b2 ∧ b2 < 192
      else if b1 = 244 then 128 ≤ b2 ∧ b2 < 144
      else 128 ≤ b2 ∧ b2 < 192) ∧ 128 ≤ b3 ∧ b3 < 192 ∧ 128 ≤ b4 ∧ b4 < 192 then
    some ((b1 - 240) * 262144 + (b2 - 128) * 4096 + (b3 - 128) * 64 + (b4 - 128))
  else none

/-- One multi-byte sequence after its lead byte `b1 ≥ 0x80`: the code point
and how many continuation bytes it used.  `none` covers stray continuation
bytes, the overlong leads `0xC0`/`0xC1`, leads above `0xF4`, truncation, and
the narrowed-range rejections of the helpers. -/
def utf8DecodeMB (b1 : Nat) (t : List Nat) : Option (Nat × Nat) :=
  if b1 < 194 then none
  else if b1 < 224 then
    match t with
    | b2 :: _ => (utf8Cont2 b1 b2).map (fun n => (n, 1))
    | [] => none
  else if b1 < 240 then
    match t with
    | b2 :: b3 :: _ => (utf8Cont3 b1 b2 b3).map (fun n => (n, 2))
    | _ => none
  else if b1 < 245 then
    match t with
    | b2 :: b3 :: b4 :: _ => (utf8Cont4 b1 b2 b3 b4).map (fun n => (n, 3))
    | _ => none
  else none

/-- The model of `bytes.decode('utf-8')`: strict UTF-8, rejecting truncated
sequences, stray continuation bytes, overlong forms, surrogates, and code
points beyond `0x10FFFF`.  `none` is a raised `UnicodeDecodeError`. -/
def utf8Decode : List Nat → Option (List Char)
  | [] => some []
  | b1 :: t1 =>
    if b1 < 128 then (utf8Decode t1).map (fun cs => Char.ofNat b1 :: cs)
    else
      match utf8DecodeMB b1 t1 with
      | none => none
      | some (n, k) => (utf8Decode (t1.drop k)).map (fun cs => Char.ofNat n :: cs)
termination_by s => s.length
decreasing_by all_goals (simp_wf; try omega)

/-- The payload-to-value stage of the read loop (line 29-30 of
`test-host.py`): `.decode('utf-8')` then `json.loads`.  `none` is either
exception. -/
def parsePayload (bs : List Nat) : Option Json :=
  match utf8Decode bs with
  | none => none
  | some cs => loads cs

/-- The bytes of `struct.pack('I', n)` on the little-endian hosts the script
targets, defined for `n < 2^32` (`struct.error` otherwise, handled at the
call site). -/
def packU32 (n : Nat) : List Nat :=
  [n % 256, n / 256 % 256, n / 65536 % 256, n / 16777216 % 256]

/-- The value of `struct.unpack('I', bs)[0]` for a four-byte string. -/
def unpackU32 : List Nat → Nat
  | [a, b, c, d] => a + 256 * b + 65536 * c + 16777216 * d
  | _ => 0

/-- The model of `send_message(message)` (lines 10-14): the bytes written to
stdout, a 4-byte length followed by the UTF-8 JSON payload.  `none` models
`struct.pack` raising `struct.error` on a payload of 4 GiB or more. -/
def sendMessage (v : Json) : Option (List Nat) :=
  let payload := utf8Encode (dumps v)
  if payload.length < 4294967296 then some (packU32 payload.length ++ payload) else none

/-- What one pass of the read loop does to the remaining input stream before
replying. -/
inductive DecodeResult where
  /-- `sys.stdin.buffer.read(4)` returned no bytes: the loop breaks normally. -/
  | endOfStream
  /-- One to three bytes remained: `struct.unpack('I', ...)` raises
  `struct.error`. -/
  | badLenBytes
  /-- The payload did not decode as UTF-8 JSON: `UnicodeDecodeError` or
  `json.JSONDecodeError`. -/
  | malformedPayload
  /-- A value was decoded; `rest` is the stream beyond this frame. -/
  | ok (v : Json) (rest : List Nat)

/-- One iteration of the read loop (lines 25-30) up to `json.loads`:
`read(4)`, length check, `struct.unpack`, `read(length)` — which returns
whatever is available when the stream ends early — then decode and parse. -/
def decodeFrame (input : List Nat) : DecodeResult :=
  if input.length = 0 then .endOfStream
  else if input.length < 4 then .badLenBytes
  else
    match parsePayload ((input.drop 4).take (unpackU32 (input.take 4))) with
    | none => .malformedPayload
    | some v => .ok v ((input.drop 4).drop (unpackU32 (input.take 4)))

/-- Python `dict.get`: the value at the first (unique) occurrence of the key. -/
def dictGet : List (List Char × Json) → List Char → Option Json
  | [], _ => none
  | (k0, v0) :: t, k => if k0 = k then some v0 else dictGet t k

/-- The reply the host sends for a decoded dict request (line 34):
`{"id": data.get("id"), "success": True}`. -/
def mkReply (kvs : List (List Char × Json)) : Json :=
  .obj [(['i', 'd'], (dictGet kvs ['i', 'd']).getD .null),
    (['s', 'u', 'c', 'c', 'e', 's', 's'], .bool true)]

/-- The reply attempt for a decoded value: `data.get("id")` succeeds only on
a dict; on any other decoded value it raises `AttributeError`, modelled as
`none`. -/
def replyFor : Json → Option Json
  | .obj kvs => some (mkReply kvs)
  | _ => none

/-- The Python exception that ended the loop, each arm of the single
`except Exception` at line 35. -/
inductive PyError where
  /-- `struct.unpack` on fewer than four bytes. -/
  | structError
  /-- `UnicodeDecodeError` or `json.JSONDecodeError` from the payload. -/
  | decodeError
  /-- `AttributeError` from `data.get` on a non-dict. -/
  | attributeError
deriving DecidableEq

/-- How the `while True` loop ended. -/
inductive LoopExit where
  /-- Normal shutdown: `read(4)` returned zero bytes. -/
  | endOfStream
  /-- An exception was logged and the loop broke (lines 35-38). -/
  | fatal (e : PyError)
  /-- Artifact of the fuel parameter, never actually reached (see
  `readLoopF_no_fuel_exhaustion`). -/
  | outOfFuel
deriving DecidableEq

/-- The whole read loop (lines 23-38), structurally recursive on a fuel
bound: the reply values passed to `send_message`, in order, and how the loop
ended. -/
def readLoopF : Nat → List Nat → List Json × LoopExit
  | 0, _ => ([], .outOfFuel)
  | fuel + 1, input =>
    match decodeFrame input with
    | .endOfStream => ([], .endOfStream)
    | .badLenBytes => ([], .fatal .structError)
    | .malformedPayload => ([], .fatal .decodeError)
    | .ok v rest =>
      match replyFor v with
      | none => ([], .fatal .attributeError)
      | some reply =>
        let p := readLoopF fuel rest
        (reply :: p.1, p.2)

/-- The read loop on a finite input stream, with fuel that provably suffices. -/
def readLoop (input : List Nat) : List Json × LoopExit := readLoopF (input.length + 1) input

/-- The `{"type": "HOST_READY"}` message sent at line 17 before the loop. -/
def hostReady : Json :=
  .obj [(['t', 'y', 'p', 'e'], .str ['H', 'O', 'S', 'T', '_', 'R', 'E', 'A', 'D', 'Y'])]

/-- Every message the host passes to `send_message`, in order: `HOST_READY`,
then one reply per successfully processed frame. -/
def hostOutputs (input : List Nat) : List Json := hostReady :: (readLoop input).1

/-- The model of `host-wrapper.py`: `subprocess.Popen` with inherited
standard streams, then `proc.wait()` — whose return value, the child's exit
code, the script ignores — and then the script ends, so the Python
interpreter exits with status 0 regardless of the argument. -/
def wrapperExitCode (_childExitCode : Nat) : Nat := 0

/-- A delimiter position for a number: end of input, or a next character that
can extend neither the digit run nor turn it into a float.  Every position a
rendered number occupies in `dumps` output ends at such a place. -/
def numStop : List Char → Bool
  | [] => true
  | c :: _ => !isDigit c && !(c == '.') && !(c == 'e') && !(c == 'E')

theorem char_toNat_ofNat {n : Nat} (h : n.isValidChar) : (Char.ofNat n).toNat = n := by
  simp only [Char.ofNat, h, dite_true, Char.ofNatAux, Char.toNat, UInt32.toNat]
  simp

theorem char_eq_iff {c d : Char} : c = d ↔ c.toNat = d.toNat := by
  constructor
  · intro h; rw [h]
  · intro h
    have := congrArg Char.ofNat h
    rwa [Char.ofNat_toNat, Char.ofNat_toNat] at this

theorem isDigit_iff {c : Char} : isDigit c = true ↔ 48 ≤ c.toNat ∧ c.toNat ≤ 57 := by
  simp [isDigit]

theorem digitChar_toNat {d : Nat} (h : d < 10) : (digitChar d).toNat = 48 + d := by
  have hv : (48 + d).isValidChar := Or.inl (by omega)
  simp [digitChar, char_toNat_ofNat hv]

theorem isDigit_digitChar {d : Nat} (h : d < 10) : isDigit (digitChar d) = true := by
  rw [isDigit_iff, digitChar_toNat h]
  omega

theorem natDigitsRev_lt_ten (n : Nat) : ∀ d ∈ natDigitsRev n, d < 10 := by
  induction n using Nat.strong_induction_on with
  | _ n ih =>
    rw [natDigitsRev]
    by_cases h : n = 0
    · simp [h]
    · simp only [h, dite_false, List.mem_cons]
      intro d hd
      rcases hd with rfl | hd
      · omega
      · exact ih (n / 10) (Nat.div_lt_self (by omega) (by omega)) d hd

theorem natDigitsRev_ne_nil {n : Nat} (h : n ≠ 0) : natDigitsRev n ≠ [] := by
  rw [natDigitsRev]
  simp [h]

theorem natDigitsRev_getLast {n : Nat} : ∀ d, (natDigitsRev n).getLast? = some d → d ≠ 0 := by
  induction n using Nat.strong_induction_on with
  | _ n ih =>
    intro d hd
    rw [natDigitsRev] at hd
    by_cases h : n = 0
    · simp [h] at hd
    · simp only [h, dite_false] at hd
      by_cases h10 : n / 10 = 0
      · rw [show natDigitsRev (n / 10) = [] from by rw [natDigitsRev]; simp [h10]] at hd
        simp at hd
        omega
      · rw [List.getLast?_cons] at hd
        obtain ⟨x, hx⟩ :=
          Option.isSome_iff_exists.mp (List.getLast?_isSome.mpr (natDigitsRev_ne_nil h10))
        rw [hx] at hd
        simp only [Option.getD_some, Option.some.injEq] at hd
        subst hd
        exact ih (n / 10) (Nat.div_lt_self (by omega) (by omega)) x hx

theorem digitsVal_append_one (ds : List Char) (c : Char) :
    digitsVal (ds ++ [c]) = digitsVal ds * 10 + (c.toNat - 48) := by
  simp [digitsVal, List.foldl_append]

theorem digitsVal_natDigitsRev (n : Nat) :
    digitsVal ((natDigitsRev n).reverse.map digitChar) = n := by
  induction n using Nat.strong_induction_on with
  | _ n ih =>
    rw [natDigitsRev]
    by_cases h : n = 0
    · simp [h, digitsVal]
    · simp only [h, dite_false, List.reverse_cons, List.map_append, List.map_cons,
        List.map_nil, digitsVal_append_one]
      rw [ih (n / 10) (Nat.div_lt_self (by omega) (by omega)),
        digitChar_toNat (Nat.mod_lt n (by omega))]
      omega

theorem digitsVal_natToChars (n : Nat) : digitsVal (natToChars n) = n := by
  rw [natToChars]
  by_cases h : n = 0
  · simp [h, digitsVal]
  · simp only [h, if_false]
    exact digitsVal_natDigitsRev n

theorem natToChars_digits (n : Nat) : ∀ c ∈ natToChars n, isDigit c = true := by
  rw [natToChars]
  by_cases h : n = 0
  · simp [h]
    decide
  · simp only [h, if_false]
    intro c hc
    rw [List.mem_map] at hc
    obtain ⟨d, hd, rfl⟩ := hc
    rw [List.mem_reverse] at hd
    exact isDigit_digitChar (natDigitsRev_lt_ten n d hd)

theorem natToChars_ne_nil (n : Nat) : natToChars n ≠ [] := by
  rw [natToChars]
  by_cases h : n = 0
  · simp [h]
  · simp only [h, if_false, ne_eq, List.map_eq_nil_iff, List.reverse_eq_nil_iff]
    exact natDigitsRev_ne_nil h

theorem natToChars_head_ne_zero {n : Nat} (h : n ≠ 0) :
    ∀ c t, natToChars n = c :: t → c ≠ '0' := by
  intro c t hct
  rw [natToChars] at hct
  simp only [h, if_false] at hct
  have hrev : (natDigitsRev n).reverse ≠ [] := by
    simp only [ne_eq, List.reverse_eq_nil_iff]
    exact natDigitsRev_ne_nil h
  obtain ⟨d, ds, hds⟩ := List.exists_cons_of_ne_nil hrev
  rw [hds, List.map_cons, List.cons.injEq] at hct
  have hdlast : (natDigitsRev n).getLast? = some d := by
    rw [← List.head?_reverse, hds]
    rfl
  have hd0 : d ≠ 0 := natDigitsRev_getLast d hdlast
  have hd10 : d < 10 := by
    refine natDigitsRev_lt_ten n d ?_
    rw [← List.mem_reverse, hds]
    exact List.mem_cons_self d ds
  rw [← hct.1]
  rw [ne_eq, char_eq_iff, digitChar_toNat hd10]
  intro hcontra
  have : ('0').toNat = 48 := rfl
  omega

theorem numStop_not_digit {c : Char} {t : List Char} (h : numStop (c :: t) = true) :
    isDigit c = false := by
  simp only [numStop, Bool.and_eq_true, Bool.not_eq_true'] at h
  exact h.1.1.1

theorem startsFrac_of_numStop {r : List Char} (h : numStop r = true) :
    startsFrac r = false := by
  match r with
  | [] => rfl
  | [c] => rfl
  | c :: d :: t =>
    simp only [numStop, Bool.and_eq_true, Bool.not_eq_true', beq_eq_false_iff_ne] at h
    simp [startsFrac, h.1.1.2]

theorem startsExp_of_numStop {r : List Char} (h : numStop r = true) :
    startsExp r = false := by
  match r with
  | [] => rfl
  | c :: t =>
    simp only [numStop, Bool.and_eq_true, Bool.not_eq_true', beq_eq_false_iff_ne] at h
    rw [startsExp.eq_def]
    simp only [h.1.2, h.2, or_self, if_false]

theorem takeDigits_stop {r : List Char} (h : numStop r = true) : takeDigits r = ([], r) := by
  match r with
  | [] => rfl
  | c :: t => rw [takeDigits.eq_def]; simp [numStop_not_digit h]

theorem takeDigits_run (ds : List Char) (hds : ∀ c ∈ ds, isDigit c = true)
    {rest : List Char} (hrest : numStop rest = true) :
    takeDigits (ds ++ rest) = (ds, rest) := by
  induction ds with
  | nil => simpa using takeDigits_stop hrest
  | cons c t ih =>
    have hc : isDigit c = true := hds c (List.mem_cons_self c t)
    rw [List.cons_append, takeDigits.eq_def]
    simp only [hc, if_true]
    rw [ih (fun x hx => hds x (List.mem_cons_of_mem c hx))]

theorem parseUInt_natToChars (n : Nat) {rest : List Char} (h : numStop rest = true) :
    parseUInt (natToChars n ++ rest) = some (n, rest) := by
  by_cases h0 : n = 0
  · subst h0
    rw [show natToChars 0 ++ rest = '0' :: rest from rfl]
    simp [parseUInt.eq_def, startsFrac_of_numStop h, startsExp_of_numStop h]
  · obtain ⟨c, t, hct⟩ := List.exists_cons_of_ne_nil (natToChars_ne_nil n)
    have hc0 : c ≠ '0' := natToChars_head_ne_zero h0 c t hct
    have hcd : isDigit c = true := natToChars_digits n c (hct ▸ List.mem_cons_self c t)
    have hval : digitsVal (c :: t) = n := by rw [← hct]; exact digitsVal_natToChars n
    rw [hct, List.cons_append]
    simp only [parseUInt.eq_def, hc0, if_false, hcd, if_true,
      takeDigits_run t (fun x hx => natToChars_digits n x (hct ▸ List.mem_cons_of_mem c hx)) h,
      startsFrac_of_numStop h, startsExp_of_numStop h, hval]
    simp

theorem digit_ne_minus {c : Char} (h : isDigit c = true) : c ≠ '-' := by
  rw [isDigit_iff] at h
  rw [ne_eq, char_eq_iff]
  intro hc
  have : ('-').toNat = 45 := rfl
  omega

theorem parseNum_intToChars (i : Int) {rest : List Char} (h : numStop rest = true) :
    parseNum (intToChars i ++ rest) = some (.num i, rest) := by
  rw [intToChars]
  by_cases hi : i < 0
  · simp only [hi, if_true, List.cons_append]
    rw [parseNum, parseUInt_natToChars i.natAbs h]
    have hcast : -((i.natAbs : Nat) : Int) = i := by omega
    simp [hcast, abs_of_neg hi]
  · simp only [hi, if_false]
    obtain ⟨c, t, hct⟩ := List.exists_cons_of_ne_nil (natToChars_ne_nil i.natAbs)
    have hcd : isDigit c = true := natToChars_digits _ c (hct ▸ List.mem_cons_self c t)
    have hcast : ((i.natAbs : Nat) : Int) = i := by omega
    rw [hct, List.cons_append, parseNum]
    simp only [digit_ne_minus hcd, if_false]
    rw [← List.cons_append, ← hct, parseUInt_natToChars i.natAbs h]
    simp [hcast]


theorem hexVal_hexChar {k : Nat} (h : k < 16) : hexVal (hexChar k) = some k := by
  rw [hexChar]
  by_cases h10 : k < 10
  · have hv : (48 + k).isValidChar := Or.inl (by omega)
    rw [if_pos h10]
    simp only [hexVal, char_toNat_ofNat hv]
    rw [if_pos (by omega : 48 ≤ 48 + k ∧ 48 + k ≤ 57)]
    congr 1
    omega
  · have hv : (87 + k).isValidChar := Or.inl (by omega)
    rw [if_neg h10]
    simp only [hexVal, char_toNat_ofNat hv]
    rw [if_neg (by omega : ¬(48 ≤ 87 + k ∧ 87 + k ≤ 57)),
      if_pos (by omega : 97 ≤ 87 + k ∧ 87 + k ≤ 102)]
    congr 1
    omega

theorem hex4_escU {n : Nat} (h : n < 65536) :
    hex4 (hexChar (n / 4096 % 16)) (hexChar (n / 256 % 16)) (hexChar (n / 16 % 16))
      (hexChar (n % 16)) = some n := by
  simp only [hex4, hexVal_hexChar (show n / 4096 % 16 < 16 by omega),
    hexVal_hexChar (show n / 256 % 16 < 16 by omega),
    hexVal_hexChar (show n / 16 % 16 < 16 by omega),
    hexVal_hexChar (show n % 16 < 16 by omega), Option.some.injEq]
  omega

theorem char_upper (c : Char) : c.toNat < 1114112 := by
  show c.val.toNat < 1114112
  rcases c.valid with h | ⟨h1, h2⟩
  · omega
  · omega

theorem char_not_surrogate (c : Char) : c.toNat < 55296 ∨ 57344 ≤ c.toNat := by
  show c.val.toNat < 55296 ∨ 57344 ≤ c.val.toNat
  rcases c.valid with h | ⟨h1, h2⟩
  · omega
  · omega

example (t : List Char) : parseString ('\\' :: '"' :: t)
    = (parseString t).map (fun p => ('"' :: p.1, p.2)) := by
  rw [parseString.eq_def]
  simp [readEscape]

theorem parseString_escU {n : Nat} (hn : n < 65536) (hval : n < 55296 ∨ 57344 ≤ n)
    (t : List Char) :
    parseString (escU n ++ t) = (parseString t).map (fun p => (Char.ofNat n :: p.1, p.2)) := by
  simp only [escU, List.cons_append, List.nil_append]
  rw [parseString.eq_def]
  simp [readEscape, hex4_escU hn, hval]

theorem parseString_escPair {hi lo : Nat} (hhi1 : 55296 ≤ hi) (hhi2 : hi < 56320)
    (hlo1 : 56320 ≤ lo) (hlo2 : lo < 57344) (t : List Char) :
    parseString (escU hi ++ (escU lo ++ t)) =
      (parseString t).map
        (fun p => (Char.ofNat (65536 + (hi - 55296) * 1024 + (lo - 56320)) :: p.1, p.2)) := by
  simp only [escU, List.cons_append, List.nil_append]
  rw [parseString.eq_def]
  simp [readEscape, hex4_escU (show hi < 65536 by omega), hex4_escU (show lo < 65536 by omega),
    (show ¬(hi < 55296 ∨ 57344 ≤ hi) by omega), (show hi < 56320 from hhi2),
    (show 56320 ≤ lo ∧ lo < 57344 from ⟨hlo1, hlo2⟩)]

theorem parseString_escapeChar (c : Char) (t : List Char) :
    parseString (escapeChar c ++ t) = (parseString t).map (fun p => (c :: p.1, p.2)) := by
  rw [escapeChar]
  by_cases h1 : c = '"'
  · subst h1
    rw [if_pos rfl, List.cons_append, List.cons_append, List.nil_append, parseString.eq_def]
    simp [readEscape]
  rw [if_neg h1]
  by_cases h2 : c = '\\'
  · subst h2
    rw [if_pos rfl, List.cons_append, List.cons_append, List.nil_append, parseString.eq_def]
    simp [readEscape]
  rw [if_neg h2]
  by_cases h3 : c.toNat = 8
  · have hc : Char.ofNat 8 = c := by rw [char_eq_iff, char_toNat_ofNat (Or.inl (by omega)), h3]
    rw [if_pos h3, List.cons_append, List.cons_append, List.nil_append, parseString.eq_def]
    simp [readEscape]
    rw [hc]
  rw [if_neg h3]
  by_cases h4 : c.toNat = 9
  · have hc : Char.ofNat 9 = c := by rw [char_eq_iff, char_toNat_ofNat (Or.inl (by omega)), h4]
    rw [if_pos h4, List.cons_append, List.cons_append, List.nil_append, parseString.eq_def]
    simp [readEscape]
    rw [hc]
  rw [if_neg h4]
  by_cases h5 : c.toNat = 10
  · have hc : Char.ofNat 10 = c := by rw [char_eq_iff, char_toNat_ofNat (Or.inl (by omega)), h5]
    rw [if_pos h5, List.cons_append, List.cons_append, List.nil_append, parseString.eq_def]
    simp [readEscape]
    rw [hc]
  rw [if_neg h5]
  by_cases h6 : c.toNat = 12
  · have hc : Char.ofNat 12 = c := by rw [char_eq_iff, char_toNat_ofNat (Or.inl (by omega)), h6]
    rw [if_pos h6, List.cons_append, List.cons_append, List.nil_append, parseString.eq_def]
    simp [readEscape]
    rw [hc]
  rw [if_neg h6]
  by_cases h7 : c.toNat = 13
  · have hc : Char.ofNat 13 = c := by rw [char_eq_iff, char_toNat_ofNat (Or.inl (by omega)), h7]
    rw [if_pos h7, List.cons_append, List.cons_append, List.nil_append, parseString.eq_def]
    simp [readEscape]
    rw [hc]
  rw [if_neg h7]
  by_cases h8 : c.toNat < 32 ∨ 127 ≤ c.toNat
  · rw [if_pos h8]
    by_cases h9 : c.toNat < 65536
    · rw [if_pos h9, parseString_escU h9 (char_not_surrogate c), Char.ofNat_toNat]
    · rw [if_neg h9]
      have htop := char_upper c
      rw [List.append_assoc,
        parseString_escPair (by omega) (by omega) (by omega) (by omega) t]
      rw [show 65536 + (55296 + (c.toNat - 65536) / 1024 - 55296) * 1024 +
        (56320 + (c.toNat - 65536) % 1024 - 56320) = c.toNat from by omega, Char.ofNat_toNat]
  · rw [if_neg h8]
    push_neg at h8
    rw [List.cons_append, List.nil_append, parseString.eq_def]
    simp [h1, h2, (show ¬c.toNat < 32 by omega)]

theorem parseString_dumpsStr (s : List Char) (rest : List Char) :
    parseString ((s.map escapeChar).flatten ++ ('"' :: rest)) = some (s, rest) := by
  induction s with
  | nil =>
    rw [List.map_nil, List.flatten_nil, List.nil_append, parseString.eq_def]
    simp
  | cons c s ih =>
    rw [List.map_cons, List.flatten_cons, List.append_assoc, parseString_escapeChar, ih]
    rfl

theorem skipWs_cons {c : Char} (r : List Char) (h : isWs c = false) : skipWs (c :: r) = c :: r := by
  rw [skipWs]
  simp [h]

theorem skipWs_space (r : List Char) : skipWs (' ' :: r) = skipWs r := by
  rw [skipWs]
  simp [isWs]

theorem char_ne_of_toNat_ne {c d : Char} (h : c.toNat ≠ d.toNat) : c ≠ d :=
  fun he => h (congrArg Char.toNat he)

theorem digit_head_facts {c : Char} (h : isDigit c = true) :
    isWs c = false ∧ c ≠ ']' ∧ c ≠ '}' ∧ c ≠ 'n' ∧ c ≠ 't' ∧ c ≠ 'f' ∧ c ≠ '"' ∧
      c ≠ '[' ∧ c ≠ '{' := by
  rw [isDigit_iff] at h
  refine ⟨?_, ?_, ?_, ?_, ?_, ?_, ?_, ?_, ?_⟩
  · simp only [isWs, Bool.or_eq_false_iff, beq_eq_false_iff_ne]
    refine ⟨⟨⟨?_, ?_⟩, ?_⟩, ?_⟩
    · exact char_ne_of_toNat_ne (by rw [show (' ').toNat = 32 from rfl]; omega)
    · exact char_ne_of_toNat_ne (by rw [show ('\t').toNat = 9 from rfl]; omega)
    · exact char_ne_of_toNat_ne (by rw [show ('\n').toNat = 10 from rfl]; omega)
    · exact char_ne_of_toNat_ne (by rw [show ('\r').toNat = 13 from rfl]; omega)
  · exact char_ne_of_toNat_ne (by rw [show (']').toNat = 93 from rfl]; omega)
  · exact char_ne_of_toNat_ne (by rw [show ('}').toNat = 125 from rfl]; omega)
  · exact char_ne_of_toNat_ne (by rw [show ('n').toNat = 110 from rfl]; omega)
  · exact char_ne_of_toNat_ne (by rw [show ('t').toNat = 116 from rfl]; omega)
  · exact char_ne_of_toNat_ne (by rw [show ('f').toNat = 102 from rfl]; omega)
  · exact char_ne_of_toNat_ne (by rw [show ('"').toNat = 34 from rfl]; omega)
  · exact char_ne_of_toNat_ne (by rw [show ('[').toNat = 91 from rfl]; omega)
  · exact char_ne_of_toNat_ne (by rw [show ('{').toNat = 123 from rfl]; omega)

theorem intToChars_head (i : Int) :
    ∃ c t, intToChars i = c :: t ∧ (c = '-' ∨ isDigit c = true) := by
  rw [intToChars]
  by_cases hi : i < 0
  · exact ⟨'-', natToChars i.natAbs, by simp [hi], Or.inl rfl⟩
  · obtain ⟨c, t, hct⟩ := List.exists_cons_of_ne_nil (natToChars_ne_nil i.natAbs)
    exact ⟨c, t, by simp [hi, hct],
      Or.inr (natToChars_digits _ c (hct ▸ List.mem_cons_self c t))⟩

theorem dumps_head (v : Json) :
    ∃ c t, dumps v = c :: t ∧ isWs c = false ∧ c ≠ ']' ∧ c ≠ '}' := by
  cases v with
  | null => exact ⟨'n', ['u', 'l', 'l'], by simp [dumps], by decide, by decide, by decide⟩
  | bool b =>
    cases b with
    | true => exact ⟨'t', ['r', 'u', 'e'], by simp [dumps], by decide, by decide, by decide⟩
    | false => exact ⟨'f', ['a', 'l', 's', 'e'], by simp [dumps], by decide, by decide, by decide⟩
  | num i =>
    obtain ⟨c, t, hct, hc⟩ := intToChars_head i
    rcases hc with rfl | hdig
    · exact ⟨'-', t, by simp [dumps, hct], by decide, by decide, by decide⟩
    · obtain ⟨hws, hbr, hbc, _⟩ := digit_head_facts hdig
      exact ⟨c, t, by simp [dumps, hct], hws, hbr, hbc⟩
  | str s =>
    exact ⟨'"', (s.map escapeChar).flatten ++ ['"'], by simp [dumps, dumpsStr],
      by decide, by decide, by decide⟩
  | arr xs =>
    cases xs with
    | nil => exact ⟨'[', [']'], by simp [dumps], by decide, by decide, by decide⟩
    | cons x xs =>
      exact ⟨'[', dumpsElems x xs ++ [']'], by simp [dumps], by decide, by decide, by decide⟩
  | obj kvs =>
    cases kvs with
    | nil => exact ⟨'{', ['}'], by simp [dumps], by decide, by decide, by decide⟩
    | cons kv kvs =>
      exact ⟨'{', dumpsMembers kv kvs ++ ['}'], by simp [dumps], by decide, by decide, by decide⟩

theorem dumps_ne_nil (v : Json) : dumps v ≠ [] := by
  obtain ⟨c, t, hct, _⟩ := dumps_head v
  simp [hct]

theorem skipWs_dumps (v : Json) (x : List Char) :
    skipWs (dumps v ++ x) = dumps v ++ x := by
  obtain ⟨c, t, hct, hws, _⟩ := dumps_head v
  rw [hct, List.cons_append, skipWs_cons _ hws]

theorem dictInsert_not_mem {d : List (List Char × Json)} {k : List Char} (v : Json)
    (h : ∀ p ∈ d, p.1 ≠ k) : dictInsert d k v = d ++ [(k, v)] := by
  induction d with
  | nil => rfl
  | cons p t ih =>
    obtain ⟨k0, v0⟩ := p
    rw [dictInsert]
    rw [if_neg (h (k0, v0) (List.mem_cons_self _ t))]
    rw [ih (fun q hq => h q (List.mem_cons_of_mem _ hq))]
    rfl

theorem buildDict_loop (ps acc : List (List Char × Json))
    (hnd : (ps.map Prod.fst).Nodup) (hdisj : ∀ p ∈ ps, ∀ q ∈ acc, q.1 ≠ p.1) :
    ps.foldl (fun d p => dictInsert d p.1 p.2) acc = acc ++ ps := by
  induction ps generalizing acc with
  | nil => simp
  | cons p t ih =>
    rw [List.foldl_cons, dictInsert_not_mem p.2 (fun q hq => hdisj p (List.mem_cons_self p t) q hq)]
    rw [List.map_cons, List.nodup_cons] at hnd
    rw [ih (acc ++ [p]) hnd.2]
    · simp
    · intro q hq w hw
      rcases List.mem_append.mp hw with hw | hw
      · exact hdisj q (List.mem_cons_of_mem p hq) w hw
      · rw [List.mem_singleton] at hw
        subst hw
        intro hcontra
        exact hnd.1 (hcontra ▸ List.mem_map_of_mem Prod.fst hq)

theorem buildDict_nodup (ps : List (List Char × Json)) (h : (ps.map Prod.fst).Nodup) :
    buildDict ps = ps := by
  rw [buildDict, buildDict_loop ps [] h (fun p hp q hq => absurd hq (List.not_mem_nil q))]
  rfl

theorem parseValue_litNull (fuel : Nat) (r : List Char) :
    parseValue (fuel + 1) ('n' :: 'u' :: 'l' :: 'l' :: r) = some (.null, r) := rfl

theorem parseValue_litTrue (fuel : Nat) (r : List Char) :
    parseValue (fuel + 1) ('t' :: 'r' :: 'u' :: 'e' :: r) = some (.bool true, r) := rfl

theorem parseValue_litFalse (fuel : Nat) (r : List Char) :
    parseValue (fuel + 1) ('f' :: 'a' :: 'l' :: 's' :: 'e' :: r) = some (.bool false, r) := rfl

theorem parseValue_quote (fuel : Nat) (r : List Char) :
    parseValue (fuel + 1) ('"' :: r) = (parseString r).map (fun p => (.str p.1, p.2)) := rfl

theorem parseValue_bracket (fuel : Nat) {r r1 : List Char} {c1 : Char}
    (hskip : skipWs r = c1 :: r1) (hne : c1 ≠ ']') :
    parseValue (fuel + 1) ('[' :: r) =
      (parseElems fuel (c1 :: r1)).map (fun p => (Json.arr p.1, p.2)) := by
  rw [parseValue.eq_def]
  simp [hskip, hne]

theorem parseValue_bracketEmpty (fuel : Nat) {r r1 : List Char}
    (hskip : skipWs r = ']' :: r1) :
    parseValue (fuel + 1) ('[' :: r) = some (.arr [], r1) := by
  rw [parseValue.eq_def]
  simp [hskip]

theorem parseValue_brace (fuel : Nat) {r r1 : List Char} {c1 : Char}
    (hskip : skipWs r = c1 :: r1) (hne : c1 ≠ '}') :
    parseValue (fuel + 1) ('{' :: r) =
      (parseMembers fuel (c1 :: r1)).map (fun p => (Json.obj (buildDict p.1), p.2)) := by
  rw [parseValue.eq_def]
  simp [hskip, hne]

theorem parseValue_braceEmpty (fuel : Nat) {r r1 : List Char}
    (hskip : skipWs r = '}' :: r1) :
    parseValue (fuel + 1) ('{' :: r) = some (.obj [], r1) := by
  rw [parseValue.eq_def]
  simp [hskip]

theorem parseValue_numlike (fuel : Nat) {c : Char} (t : List Char)
    (h1 : c ≠ 'n') (h2 : c ≠ 't') (h3 : c ≠ 'f') (h4 : c ≠ '"') (h5 : c ≠ '[') (h6 : c ≠ '{')
    (hnum : startsNum (c :: t) = true) :
    parseValue (fuel + 1) (c :: t) = parseNum (c :: t) := by
  rw [parseValue.eq_def]
  simp [h1, h2, h3, h4, h5, h6, hnum]

theorem dumpsElems_eq (x : Json) (xs : List Json) :
    ∃ tail, dumpsElems x xs = dumps x ++ tail := by
  cases xs with
  | nil => exact ⟨[], by simp [dumpsElems]⟩
  | cons y ys => exact ⟨',' :: ' ' :: dumpsElems y ys, by simp [dumpsElems]⟩

theorem dumpsMembers_quote (kv : List Char × Json) (kvs : List (List Char × Json)) :
    ∃ tail, dumpsMembers kv kvs = '"' :: tail := by
  obtain ⟨k, v⟩ := kv
  cases kvs with
  | nil =>
    exact ⟨(List.map escapeChar k).flatten ++ '"' :: ':' :: ' ' :: dumps v,
      by simp [dumpsMembers, dumpsStr]⟩
  | cons kv2 kvs2 =>
    exact ⟨(List.map escapeChar k).flatten ++
      '"' :: ':' :: ' ' :: (dumps v ++ ',' :: ' ' :: dumpsMembers kv2 kvs2),
      by simp [dumpsMembers, dumpsStr]⟩

theorem skipWs_dumpsElems (x : Json) (xs : List Json) (w : List Char) :
    skipWs (dumpsElems x xs ++ w) = dumpsElems x xs ++ w := by
  obtain ⟨tail, ht⟩ := dumpsElems_eq x xs
  rw [ht, List.append_assoc, skipWs_dumps]

theorem skipWs_dumpsMembers (kv : List Char × Json) (kvs : List (List Char × Json))
    (w : List Char) :
    skipWs (dumpsMembers kv kvs ++ w) = dumpsMembers kv kvs ++ w := by
  obtain ⟨tail, ht⟩ := dumpsMembers_quote kv kvs
  rw [ht, List.cons_append, skipWs_cons]
  decide

theorem numStop_bracket (r : List Char) : numStop (']' :: r) = true := by
  simp [numStop, isDigit]

theorem numStop_brace (r : List Char) : numStop ('}' :: r) = true := by
  simp [numStop, isDigit]

theorem numStop_comma (r : List Char) : numStop (',' :: r) = true := by
  simp [numStop, isDigit]

theorem wf_arr_head {x : Json} {xs : List Json} (h : WellFormed (.arr (x :: xs))) :
    WellFormed x := by
  cases h with
  | arr _ hall => exact hall x (List.mem_cons_self x xs)

theorem wf_arr_tail {x : Json} {xs : List Json} (h : WellFormed (.arr (x :: xs))) :
    WellFormed (.arr xs) := by
  cases h with
  | arr _ hall => exact .arr xs (fun y hy => hall y (List.mem_cons_of_mem x hy))

theorem wf_obj_nodup {kvs : List (List Char × Json)} (h : WellFormed (.obj kvs)) :
    (kvs.map Prod.fst).Nodup := by
  cases h with
  | obj _ hk _ => exact hk

theorem wf_obj_vals {kvs : List (List Char × Json)} (h : WellFormed (.obj kvs)) :
    ∀ p ∈ kvs, WellFormed p.2 := by
  cases h with
  | obj _ _ hv => exact hv

theorem parseElems_step (fuel : Nat) (s : List Char) :
    parseElems (fuel + 1) s =
      (match parseValue fuel s with
       | none => none
       | some (v, r) =>
         match skipWs r with
         | ',' :: r1 => (parseElems fuel (skipWs r1)).map (fun p => (v :: p.1, p.2))
         | ']' :: r1 => some ([v], r1)
         | _ => none) := rfl

theorem parseMembers_step (fuel : Nat) (s : List Char) :
    parseMembers (fuel + 1) s =
      (match s with
       | '"' :: r =>
         match parseString r with
         | none => none
         | some (k, r1) =>
           match skipWs r1 with
           | ':' :: r2 =>
             match parseValue fuel (skipWs r2) with
             | none => none
             | some (v, r3) =>
               match skipWs r3 with
               | ',' :: r4 => (parseMembers fuel (skipWs r4)).map (fun p => ((k, v) :: p.1, p.2))
               | '}' :: r4 => some ([(k, v)], r4)
               | _ => none
           | _ => none
       | _ => none) := rfl

theorem parse_dumps_master (fuel : Nat) :
    (∀ (v : Json) (rest : List Char), WellFormed v → (dumps v).length < fuel →
      numStop rest = true → parseValue fuel (dumps v ++ rest) = some (v, rest)) ∧
    (∀ (x : Json) (xs : List Json) (rest : List Char), WellFormed (.arr (x :: xs)) →
      (dumpsElems x xs).length + 1 < fuel →
      parseElems fuel (dumpsElems x xs ++ (']' :: rest)) = some (x :: xs, rest)) ∧
    (∀ (kv : List Char × Json) (kvs : List (List Char × Json)) (rest : List Char),
      (∀ p ∈ kv :: kvs, WellFormed p.2) → (dumpsMembers kv kvs).length + 1 < fuel →
      parseMembers fuel (dumpsMembers kv kvs ++ ('}' :: rest)) = some (kv :: kvs, rest)) := by
  induction fuel with
  | zero =>
    exact ⟨fun v rest _ hlen _ => absurd hlen (by omega),
      fun x xs rest _ hlen => absurd hlen (by omega),
      fun kv kvs rest _ hlen => absurd hlen (by omega)⟩
  | succ f ih =>
    obtain ⟨ih1, ih2, ih3⟩ := ih
    refine ⟨?_, ?_, ?_⟩
    · intro v rest hwf hlen hstop
      cases v with
      | null =>
        rw [show dumps Json.null ++ rest = 'n' :: 'u' :: 'l' :: 'l' :: rest from by simp [dumps]]
        exact parseValue_litNull f rest
      | bool b =>
        cases b with
        | true =>
          rw [show dumps (Json.bool true) ++ rest = 't' :: 'r' :: 'u' :: 'e' :: rest from by
            simp [dumps]]
          exact parseValue_litTrue f rest
        | false =>
          rw [show dumps (Json.bool false) ++ rest = 'f' :: 'a' :: 'l' :: 's' :: 'e' :: rest from by
            simp [dumps]]
          exact parseValue_litFalse f rest
      | num i =>
        obtain ⟨c, t, hct, hc⟩ := intToChars_head i
        have hdumps : dumps (Json.num i) = intToChars i := by simp [dumps]
        rw [hdumps, hct, List.cons_append]
        have hnum : startsNum (c :: (t ++ rest)) = true := by
          rcases hc with rfl | hdig
          · simp [startsNum]
          · simp [startsNum, hdig]
        rcases hc with rfl | hdig
        · rw [parseValue_numlike f (t ++ rest) (by decide) (by decide) (by decide) (by decide)
            (by decide) (by decide) hnum, ← List.cons_append, ← hct, parseNum_intToChars i hstop]
        · obtain ⟨_, _, _, hn, ht, hf, hq, hbk, hbc⟩ := digit_head_facts hdig
          rw [parseValue_numlike f (t ++ rest) hn ht hf hq hbk hbc hnum,
            ← List.cons_append, ← hct, parseNum_intToChars i hstop]
      | str s =>
        rw [show dumps (Json.str s) ++ rest
            = '"' :: ((s.map escapeChar).flatten ++ ('"' :: rest)) from by
          simp [dumps, dumpsStr]]
        rw [parseValue_quote f, parseString_dumpsStr]
        rfl
      | arr xs =>
        cases xs with
        | nil =>
          rw [show dumps (Json.arr []) ++ rest = '[' :: (']' :: rest) from by simp [dumps]]
          exact parseValue_bracketEmpty f (skipWs_cons rest (by decide))
        | cons x xs =>
          obtain ⟨c, t, hct, hws, hbr, hbc⟩ := dumps_head x
          obtain ⟨tail, htail⟩ := dumpsElems_eq x xs
          have hshape : dumps (Json.arr (x :: xs)) ++ rest
              = '[' :: (dumpsElems x xs ++ (']' :: rest)) := by
            simp [dumps]
          rw [hshape]
          have hcons : dumpsElems x xs ++ (']' :: rest) = c :: (t ++ (tail ++ (']' :: rest))) := by
            rw [htail, hct]
            simp
          have hskip : skipWs (dumpsElems x xs ++ (']' :: rest))
              = c :: (t ++ (tail ++ (']' :: rest))) := by
            rw [skipWs_dumpsElems x xs _, hcons]
          rw [parseValue_bracket f hskip hbr, ← hcons]
          have hlen2 : (dumpsElems x xs).length + 1 < f := by
            have hL : (dumps (Json.arr (x :: xs))).length = (dumpsElems x xs).length + 2 := by
              simp [dumps]
            omega
          rw [ih2 x xs rest hwf hlen2]
          rfl
      | obj kvs =>
        cases kvs with
        | nil =>
          rw [show dumps (Json.obj []) ++ rest = '{' :: ('}' :: rest) from by simp [dumps]]
          exact parseValue_braceEmpty f (skipWs_cons rest (by decide))
        | cons kv kvs =>
          obtain ⟨tail, htail⟩ := dumpsMembers_quote kv kvs
          have hshape : dumps (Json.obj (kv :: kvs)) ++ rest
              = '{' :: (dumpsMembers kv kvs ++ ('}' :: rest)) := by
            simp [dumps]
          rw [hshape]
          have hcons : dumpsMembers kv kvs ++ ('}' :: rest) = '"' :: (tail ++ ('}' :: rest)) := by
            rw [htail]
            simp
          have hskip : skipWs (dumpsMembers kv kvs ++ ('}' :: rest))
              = '"' :: (tail ++ ('}' :: rest)) := by
            rw [skipWs_dumpsMembers kv kvs _, hcons]
          rw [parseValue_brace f hskip (by decide), ← hcons]
          have hlen2 : (dumpsMembers kv kvs).length + 1 < f := by
            have hL : (dumps (Json.obj (kv :: kvs))).length
                = (dumpsMembers kv kvs).length + 2 := by
              simp [dumps]
            omega
          rw [ih3 kv kvs rest (wf_obj_vals hwf) hlen2]
          simp only [Option.map_some']
          rw [buildDict_nodup (kv :: kvs) (wf_obj_nodup hwf)]
    · intro x xs rest hwf hlen
      cases xs with
      | nil =>
        have hel : dumpsElems x [] = dumps x := by simp [dumpsElems]
        rw [hel] at hlen ⊢
        rw [parseElems_step,
          ih1 x (']' :: rest) (wf_arr_head hwf) (by omega) (numStop_bracket rest)]
        simp [skipWs_cons, isWs]
      | cons y ys =>
        have hel : dumpsElems x (y :: ys) = dumps x ++ ',' :: ' ' :: dumpsElems y ys := by
          simp [dumpsElems]
        have hxpos : 0 < (dumps x).length := List.length_pos.mpr (dumps_ne_nil x)
        rw [hel] at hlen ⊢
        simp only [List.length_append, List.length_cons] at hlen
        rw [List.append_assoc, List.cons_append, List.cons_append]
        rw [parseElems_step,
          ih1 x (',' :: ' ' :: (dumpsElems y ys ++ (']' :: rest))) (wf_arr_head hwf)
            (by omega) (numStop_comma _)]
        simp only [skipWs_cons _ (show isWs ',' = false from by decide), skipWs_space,
          skipWs_dumpsElems]
        rw [ih2 y ys rest (wf_arr_tail hwf) (by omega)]
        rfl
    · intro kv kvs rest hwfv hlen
      obtain ⟨k, v⟩ := kv
      cases kvs with
      | nil =>
        have hm : dumpsMembers (k, v) [] = dumpsStr k ++ ':' :: ' ' :: dumps v := by
          simp [dumpsMembers]
        rw [hm] at hlen ⊢
        simp only [List.length_append, List.length_cons, dumpsStr] at hlen
        have hshape : (dumpsStr k ++ ':' :: ' ' :: dumps v) ++ ('}' :: rest)
            = '"' :: ((k.map escapeChar).flatten
                ++ ('"' :: (':' :: ' ' :: (dumps v ++ ('}' :: rest))))) := by
          simp [dumpsStr]
        rw [hshape, parseMembers_step]
        simp only [parseString_dumpsStr, skipWs_cons _ (show isWs ':' = false from by decide),
          skipWs_space, skipWs_dumps]
        rw [ih1 v ('}' :: rest) (hwfv (k, v) (List.mem_cons_self _ _)) (by omega)
          (numStop_brace rest)]
        simp [skipWs_cons, isWs]
      | cons kv2 kvs2 =>
        have hm : dumpsMembers (k, v) (kv2 :: kvs2)
            = dumpsStr k ++ ':' :: ' ' :: dumps v ++ ',' :: ' ' :: dumpsMembers kv2 kvs2 := by
          simp [dumpsMembers]
        rw [hm] at hlen ⊢
        simp only [List.length_append, List.length_cons, dumpsStr] at hlen
        have hshape : (dumpsStr k ++ ':' :: ' ' :: dumps v ++ ',' :: ' ' :: dumpsMembers kv2 kvs2)
              ++ ('}' :: rest)
            = '"' :: ((k.map escapeChar).flatten
                ++ ('"' :: (':' :: ' ' :: (dumps v
                  ++ (',' :: ' ' :: (dumpsMembers kv2 kvs2 ++ ('}' :: rest))))))) := by
          simp [dumpsStr]
        rw [hshape, parseMembers_step]
        simp only [parseString_dumpsStr, skipWs_cons _ (show isWs ':' = false from by decide),
          skipWs_space, skipWs_dumps]
        rw [ih1 v (',' :: ' ' :: (dumpsMembers kv2 kvs2 ++ ('}' :: rest)))
          (hwfv (k, v) (List.mem_cons_self _ _)) (by omega) (numStop_comma _)]
        simp only [skipWs_cons _ (show isWs ',' = false from by decide), skipWs_space,
          skipWs_dumpsMembers]
        rw [ih3 kv2 kvs2 rest (fun p hp => hwfv p (List.mem_cons_of_mem _ hp)) (by omega)]
        rfl

theorem skipWs_dumps_nil (v : Json) : skipWs (dumps v) = dumps v := by
  obtain ⟨c, t, hct, hws, _⟩ := dumps_head v
  rw [hct, skipWs_cons _ hws]

theorem loads_dumps {v : Json} (h : WellFormed v) : loads (dumps v) = some v := by
  have hmaster := (parse_dumps_master ((dumps v).length + 1)).1 v [] h (by omega) rfl
  rw [List.append_nil] at hmaster
  simp only [loads, skipWs_dumps_nil, hmaster]
  rfl

theorem json_induction (P : Json → Prop) (hnull : P .null) (hbool : ∀ b, P (.bool b))
    (hnum : ∀ i, P (.num i)) (hstr : ∀ s, P (.str s))
    (harr : ∀ xs, (∀ x ∈ xs, P x) → P (.arr xs))
    (hobj : ∀ kvs, (∀ p ∈ kvs, P p.2) → P (.obj kvs)) : ∀ v, P v
  | .null => hnull
  | .bool b => hbool b
  | .num i => hnum i
  | .str s => hstr s
  | .arr xs => harr xs (fun x hx =>
      json_induction P hnull hbool hnum hstr harr hobj x)
  | .obj kvs => hobj kvs (fun p hp =>
      json_induction P hnull hbool hnum hstr harr hobj p.2)
termination_by v => sizeOf v
decreasing_by
  · have := List.sizeOf_lt_of_mem hx
    simp only [Json.arr.sizeOf_spec]
    omega
  · have h1 := List.sizeOf_lt_of_mem hp
    have h2 : sizeOf p.2 < sizeOf p := by
      obtain ⟨a, b⟩ := p
      simp only [Prod.mk.sizeOf_spec]
      omega
    simp only [Json.obj.sizeOf_spec]
    omega

theorem hexChar_ascii {k : Nat} (h : k < 16) : (hexChar k).toNat < 128 := by
  rw [hexChar]
  by_cases hk10 : k < 10
  · rw [if_pos hk10, char_toNat_ofNat (Or.inl (by omega))]
    omega
  · rw [if_neg hk10, char_toNat_ofNat (Or.inl (by omega))]
    omega

theorem escU_ascii (n : Nat) : ∀ x ∈ escU n, x.toNat < 128 := by
  intro x hx
  simp only [escU, List.mem_cons, List.not_mem_nil, or_false] at hx
  rcases hx with rfl | rfl | rfl | rfl | rfl | rfl
  · decide
  · decide
  · exact hexChar_ascii (by omega)
  · exact hexChar_ascii (by omega)
  · exact hexChar_ascii (by omega)
  · exact hexChar_ascii (by omega)

theorem escapeChar_ascii (c : Char) : ∀ d ∈ escapeChar c, d.toNat < 128 := by
  intro d hd
  rw [escapeChar] at hd
  by_cases h1 : c = '"'
  · rw [if_pos h1] at hd
    simp only [List.mem_cons, List.not_mem_nil, or_false] at hd
    rcases hd with rfl | rfl <;> decide
  rw [if_neg h1] at hd
  by_cases h2 : c = '\\'
  · rw [if_pos h2] at hd
    simp only [List.mem_cons, List.not_mem_nil, or_false] at hd
    rcases hd with rfl | rfl <;> decide
  rw [if_neg h2] at hd
  by_cases h3 : c.toNat = 8
  · rw [if_pos h3] at hd
    simp only [List.mem_cons, List.not_mem_nil, or_false] at hd
    rcases hd with rfl | rfl <;> decide
  rw [if_neg h3] at hd
  by_cases h4 : c.toNat = 9
  · rw [if_pos h4] at hd
    simp only [List.mem_cons, List.not_mem_nil, or_false] at hd
    rcases hd with rfl | rfl <;> decide
  rw [if_neg h4] at hd
  by_cases h5 : c.toNat = 10
  · rw [if_pos h5] at hd
    simp only [List.mem_cons, List.not_mem_nil, or_false] at hd
    rcases hd with rfl | rfl <;> decide
  rw [if_neg h5] at hd
  by_cases h6 : c.toNat = 12
  · rw [if_pos h6] at hd
    simp only [List.mem_cons, List.not_mem_nil, or_false] at hd
    rcases hd with rfl | rfl <;> decide
  rw [if_neg h6] at hd
  by_cases h7 : c.toNat = 13
  · rw [if_pos h7] at hd
    simp only [List.mem_cons, List.not_mem_nil, or_false] at hd
    rcases hd with rfl | rfl <;> decide
  rw [if_neg h7] at hd
  by_cases h8 : c.toNat < 32 ∨ 127 ≤ c.toNat
  · rw [if_pos h8] at hd
    by_cases h9 : c.toNat < 65536
    · rw [if_pos h9] at hd
      exact escU_ascii _ d hd
    · rw [if_neg h9] at hd
      rcases List.mem_append.mp hd with hd | hd
      · exact escU_ascii _ d hd
      · exact escU_ascii _ d hd
  · rw [if_neg h8] at hd
    push_neg at h8
    simp only [List.mem_cons, List.not_mem_nil, or_false] at hd
    subst hd
    omega

theorem dumpsStr_ascii (s : List Char) : ∀ d ∈ dumpsStr s, d.toNat < 128 := by
  intro d hd
  simp only [dumpsStr, List.mem_cons, List.mem_append, List.mem_flatten, List.mem_map,
    List.not_mem_nil, or_false] at hd
  rcases hd with rfl | ⟨l, ⟨c, _, rfl⟩, hdl⟩ | rfl
  · decide
  · exact escapeChar_ascii c d hdl
  · decide

theorem intToChars_ascii (i : Int) : ∀ d ∈ intToChars i, d.toNat < 128 := by
  intro d hd
  have hdig : ∀ x ∈ natToChars i.natAbs, x.toNat < 128 := by
    intro x hx
    have := natToChars_digits i.natAbs x hx
    rw [isDigit_iff] at this
    omega
  rw [intToChars] at hd
  by_cases hi : i < 0
  · rw [if_pos hi] at hd
    rcases List.mem_cons.mp hd with rfl | hd
    · decide
    · exact hdig d hd
  · rw [if_neg hi] at hd
    exact hdig d hd

theorem dumpsElems_ascii (x : Json) (xs : List Json)
    (hall : ∀ e ∈ x :: xs, ∀ d ∈ dumps e, d.toNat < 128) :
    ∀ d ∈ dumpsElems x xs, d.toNat < 128 := by
  induction xs generalizing x with
  | nil =>
    intro d hd
    rw [show dumpsElems x [] = dumps x from by simp [dumpsElems]] at hd
    exact hall x (List.mem_cons_self _ _) d hd
  | cons y ys ih =>
    intro d hd
    rw [show dumpsElems x (y :: ys) = dumps x ++ ',' :: ' ' :: dumpsElems y ys from by
      simp [dumpsElems]] at hd
    rcases List.mem_append.mp hd with hd | hd
    · exact hall x (List.mem_cons_self _ _) d hd
    rcases List.mem_cons.mp hd with rfl | hd
    · decide
    rcases List.mem_cons.mp hd with rfl | hd
    · decide
    refine ih y ?_ d hd
    intro e he
    rcases List.mem_cons.mp he with rfl | he
    · exact hall e (List.mem_cons_of_mem _ (List.mem_cons_self _ _))
    · exact hall e (List.mem_cons_of_mem _ (List.mem_cons_of_mem _ he))

theorem dumpsMembers_ascii (kv : List Char × Json) (kvs : List (List Char × Json))
    (hall : ∀ p ∈ kv :: kvs, ∀ d ∈ dumps p.2, d.toNat < 128) :
    ∀ d ∈ dumpsMembers kv kvs, d.toNat < 128 := by
  induction kvs generalizing kv with
  | nil =>
    obtain ⟨k, v⟩ := kv
    intro d hd
    rw [show dumpsMembers (k, v) [] = dumpsStr k ++ ':' :: ' ' :: dumps v from by
      simp [dumpsMembers]] at hd
    rcases List.mem_append.mp hd with hd | hd
    · exact dumpsStr_ascii k d hd
    rcases List.mem_cons.mp hd with rfl | hd
    · decide
    rcases List.mem_cons.mp hd with rfl | hd
    · decide
    exact hall (k, v) (List.mem_cons_self _ _) d hd
  | cons kv2 kvs2 ih =>
    obtain ⟨k, v⟩ := kv
    intro d hd
    rw [show dumpsMembers (k, v) (kv2 :: kvs2)
        = dumpsStr k ++ ':' :: ' ' :: dumps v ++ ',' :: ' ' :: dumpsMembers kv2 kvs2 from by
      simp [dumpsMembers]] at hd
    rcases List.mem_append.mp hd with hd | hd
    · rcases List.mem_append.mp hd with hd | hd
      · exact dumpsStr_ascii k d hd
      rcases List.mem_cons.mp hd with rfl | hd
      · decide
      rcases List.mem_cons.mp hd with rfl | hd
      · decide
      exact hall (k, v) (List.mem_cons_self _ _) d hd
    rcases List.mem_cons.mp hd with rfl | hd
    · decide
    rcases List.mem_cons.mp hd with rfl | hd
    · decide
    refine ih kv2 ?_ d hd
    intro p hp
    rcases List.mem_cons.mp hp with rfl | hp
    · exact hall p (List.mem_cons_of_mem _ (List.mem_cons_self _ _))
    · exact hall p (List.mem_cons_of_mem _ (List.mem_cons_of_mem _ hp))

theorem dumps_ascii : ∀ v : Json, ∀ d ∈ dumps v, d.toNat < 128 := by
  refine json_induction _ ?_ ?_ ?_ ?_ ?_ ?_
  · intro d hd
    rw [show dumps Json.null = ['n', 'u', 'l', 'l'] from by simp [dumps]] at hd
    fin_cases hd <;> decide
  · intro b d hd
    cases b with
    | true =>
      rw [show dumps (Json.bool true) = ['t', 'r', 'u', 'e'] from by simp [dumps]] at hd
      fin_cases hd <;> decide
    | false =>
      rw [show dumps (Json.bool false) = ['f', 'a', 'l', 's', 'e'] from by simp [dumps]] at hd
      fin_cases hd <;> decide
  · intro i d hd
    rw [show dumps (Json.num i) = intToChars i from by simp [dumps]] at hd
    exact intToChars_ascii i d hd
  · intro s d hd
    rw [show dumps (Json.str s) = dumpsStr s from by simp [dumps]] at hd
    exact dumpsStr_ascii s d hd
  · intro xs ih d hd
    cases xs with
    | nil =>
      rw [show dumps (Json.arr []) = ['[', ']'] from by simp [dumps]] at hd
      fin_cases hd <;> decide
    | cons x xs =>
      rw [show dumps (Json.arr (x :: xs)) = '[' :: (dumpsElems x xs ++ [']']) from by
        simp [dumps]] at hd
      rcases List.mem_cons.mp hd with rfl | hd
      · decide
      rcases List.mem_append.mp hd with hd | hd
      · exact dumpsElems_ascii x xs (fun e he => ih e he) d hd
      · simp only [List.mem_cons, List.not_mem_nil, or_false] at hd
        subst hd
        decide
  · intro kvs ih d hd
    cases kvs with
    | nil =>
      rw [show dumps (Json.obj []) = ['{', '}'] from by simp [dumps]] at hd
      fin_cases hd <;> decide
    | cons kv kvs =>
      rw [show dumps (Json.obj (kv :: kvs)) = '{' :: (dumpsMembers kv kvs ++ ['}']) from by
        simp [dumps]] at hd
      rcases List.mem_cons.mp hd with rfl | hd
      · decide
      rcases List.mem_append.mp hd with hd | hd
      · exact dumpsMembers_ascii kv kvs (fun p hp => ih p hp) d hd
      · simp only [List.mem_cons, List.not_mem_nil, or_false] at hd
        subst hd
        decide


theorem utf8Encode_ascii (s : List Char) (h : ∀ c ∈ s, c.toNat < 128) :
    utf8Encode s = s.map Char.toNat := by
  induction s with
  | nil => rfl
  | cons c t ih =>
    have hc : c.toNat < 128 := h c (List.mem_cons_self _ _)
    rw [utf8Encode] at ih ⊢
    rw [List.map_cons, List.flatten_cons, List.map_cons]
    rw [show utf8EncodeChar c = [c.toNat] from by simp [utf8EncodeChar, hc]]
    rw [ih (fun x hx => h x (List.mem_cons_of_mem _ hx))]
    rfl

theorem utf8Decode_ascii (s : List Char) (h : ∀ c ∈ s, c.toNat < 128) :
    utf8Decode (s.map Char.toNat) = some s := by
  induction s with
  | nil => rw [List.map_nil, utf8Decode]
  | cons c t ih =>
    have hc : c.toNat < 128 := h c (List.mem_cons_self _ _)
    rw [List.map_cons, utf8Decode.eq_def]
    simp only [hc, if_true, ih (fun x hx => h x (List.mem_cons_of_mem _ hx)),
      Option.map_some', Char.ofNat_toNat]

theorem unpackU32_packU32 {n : Nat} (h : n < 4294967296) : unpackU32 (packU32 n) = n := by
  simp only [packU32, unpackU32]
  omega

theorem sendMessage_some {v : Json} {bs : List Nat} (h : sendMessage v = some bs) :
    bs = packU32 (utf8Encode (dumps v)).length ++ utf8Encode (dumps v) ∧
      (utf8Encode (dumps v)).length < 4294967296 := by
  rw [sendMessage] at h
  by_cases hlen : (utf8Encode (dumps v)).length < 4294967296
  · rw [if_pos hlen] at h
    injection h with h
    exact ⟨h.symm, hlen⟩
  · rw [if_neg hlen] at h
    cases h

theorem parsePayload_dumps {v : Json} (hwf : WellFormed v) :
    parsePayload (utf8Encode (dumps v)) = some v := by
  simp only [parsePayload, utf8Encode_ascii (dumps v) (dumps_ascii v),
    utf8Decode_ascii (dumps v) (dumps_ascii v), loads_dumps hwf]

theorem decodeFrame_sendMessage {v : Json} {bs : List Nat} (hwf : WellFormed v)
    (henc : sendMessage v = some bs) : decodeFrame bs = .ok v [] := by
  obtain ⟨hbs, hlen⟩ := sendMessage_some henc
  subst hbs
  have hpack : (packU32 (utf8Encode (dumps v)).length).length = 4 := rfl
  have htake : (packU32 (utf8Encode (dumps v)).length ++ utf8Encode (dumps v)).take 4
      = packU32 (utf8Encode (dumps v)).length := by
    rw [← hpack, List.take_left]
  have hdrop : (packU32 (utf8Encode (dumps v)).length ++ utf8Encode (dumps v)).drop 4
      = utf8Encode (dumps v) := by
    rw [← hpack, List.drop_left]
  rw [decodeFrame]
  rw [if_neg (by simp [hpack, List.length_append] :
    ¬(packU32 (utf8Encode (dumps v)).length ++ utf8Encode (dumps v)).length = 0)]
  rw [if_neg (by simp [hpack, List.length_append] :
    ¬(packU32 (utf8Encode (dumps v)).length ++ utf8Encode (dumps v)).length < 4)]
  rw [htake, hdrop, unpackU32_packU32 hlen, List.take_length, parsePayload_dumps hwf,
    List.drop_length]

theorem decodeFrame_ok_length {input : List Nat} {v : Json} {rest : List Nat}
    (h : decodeFrame input = .ok v rest) : rest.length + 4 ≤ input.length := by
  rw [decodeFrame] at h
  by_cases h0 : input.length = 0
  · rw [if_pos h0] at h
    cases h
  rw [if_neg h0] at h
  by_cases h4 : input.length < 4
  · rw [if_pos h4] at h
    cases h
  rw [if_neg h4] at h
  rcases hp : parsePayload ((input.drop 4).take (unpackU32 (input.take 4))) with _ | w
  · rw [hp] at h
    cases h
  · rw [hp] at h
    simp only [] at h
    cases h
    simp only [List.length_drop]
    omega

theorem readLoopF_not_outOfFuel : ∀ (fuel : Nat) (input : List Nat), input.length < fuel →
    (readLoopF fuel input).2 ≠ .outOfFuel := by
  intro fuel
  induction fuel with
  | zero => intro input h; omega
  | succ f ih =>
    intro input h
    rcases hd : decodeFrame input with _ | _ | _ | ⟨v, rest⟩
    · rw [readLoopF, hd]
      show (([] : List Json), LoopExit.endOfStream).2 ≠ LoopExit.outOfFuel
      simp
    · rw [readLoopF, hd]
      show (([] : List Json), LoopExit.fatal PyError.structError).2 ≠ LoopExit.outOfFuel
      simp
    · rw [readLoopF, hd]
      show (([] : List Json), LoopExit.fatal PyError.decodeError).2 ≠ LoopExit.outOfFuel
      simp
    · rw [readLoopF, hd]
      show (match replyFor v with
            | none => (([] : List Json), LoopExit.fatal PyError.attributeError)
            | some reply => (reply :: (readLoopF f rest).1, (readLoopF f rest).2)).2 ≠
          LoopExit.outOfFuel
      rcases hr : replyFor v with _ | reply
      · show (([] : List Json), LoopExit.fatal PyError.attributeError).2 ≠ LoopExit.outOfFuel
        simp
      · show ((reply :: (readLoopF f rest).1, (readLoopF f rest).2)).2 ≠ LoopExit.outOfFuel
        have hlen := decodeFrame_ok_length hd
        exact ih rest (by omega)

theorem readLoop_never_outOfFuel (input : List Nat) : (readLoop input).2 ≠ .outOfFuel :=
  readLoopF_not_outOfFuel (input.length + 1) input (by omega)

theorem readLoop_malformed {input : List Nat} (h : decodeFrame input = .malformedPayload) :
    readLoop input = ([], .fatal .decodeError) := by
  rw [readLoop, readLoopF, h]

theorem readLoop_badLen {input : List Nat} (h : decodeFrame input = .badLenBytes) :
    readLoop input = ([], .fatal .structError) := by
  rw [readLoop, readLoopF, h]

theorem hostReady_wellFormed : WellFormed hostReady := by
  refine .obj _ (by simp) ?_
  intro kv hkv
  simp only [hostReady] at hkv
  rcases List.mem_cons.mp hkv with rfl | hkv
  · exact .str _
  · exact absurd hkv (List.not_mem_nil kv)

theorem sendMessage_hostReady_eq : sendMessage hostReady = some [22, 0, 0, 0, 123, 34, 116, 121,
    112, 101, 34, 58, 32, 34, 72, 79, 83, 84, 95, 82, 69, 65, 68, 89, 34, 125] := by
  simp [sendMessage, hostReady, dumps, dumpsMembers, dumpsStr, escapeChar, utf8Encode,
    utf8EncodeChar, packU32]

/-- C1: for every JSON-serializable value `v`, decoding the byte sequence produced
by encoding `v` — the 4-byte length followed by the UTF-8 JSON payload — yields
`v` back, with the whole frame consumed. -/
theorem c1_decode_encode_roundtrip (v : Json) (bs : List Nat) (hwf : WellFormed v)
    (henc : sendMessage v = some bs) : decodeFrame bs = .ok v [] :=
  decodeFrame_sendMessage hwf henc

/-- Witness for C1 at the `HOST_READY` message. -/
theorem c1_witness :
    sendMessage hostReady = some [22, 0, 0, 0, 123, 34, 116, 121, 112, 101, 34, 58, 32, 34, 72,
      79, 83, 84, 95, 82, 69, 65, 68, 89, 34, 125] ∧
    decodeFrame [22, 0, 0, 0, 123, 34, 116, 121, 112, 101, 34, 58, 32, 34, 72, 79, 83, 84, 95,
      82, 69, 65, 68, 89, 34, 125] = .ok hostReady [] :=
  ⟨sendMessage_hostReady_eq,
    c1_decode_encode_roundtrip hostReady _ hostReady_wellFormed sendMessage_hostReady_eq⟩

/-- C2 counterexample: a child exiting with code 1 gives a parent exit code of 0,
so the parent's exit code does not equal the child's. -/
theorem c2_counterexample : wrapperExitCode 1 = 0 ∧ (0 : Nat) ≠ 1 :=
  ⟨rfl, by decide⟩

/-- C2 as amended: the parent waits for the child and then always exits with
code 0 — its exit code equals the child's only in the case the child also
exited 0. -/
theorem c2_wrapper_exit_code (childExitCode : Nat) :
    wrapperExitCode childExitCode = 0 ∧
      (wrapperExitCode childExitCode = childExitCode ↔ childExitCode = 0) := by
  refine ⟨rfl, ?_⟩
  constructor
  · intro hh
    exact hh.symm
  · intro hh
    rw [hh]
    rfl

/-- C4: an already-closed stream with zero bytes yields `EndOfStream`
immediately — the loop sends no replies and terminates normally. -/
theorem c4_empty_stream_eos :
    decodeFrame [] = .endOfStream ∧ readLoop [] = ([], .endOfStream) :=
  ⟨rfl, rfl⟩

/-- C5: a frame whose payload bytes are not valid UTF-8 JSON makes the frame
decoder signal the malformed payload, and the read loop terminates at once —
no reply is sent and no further frame is attempted. -/
theorem c5_malformed_payload_aborts (input : List Nat) (h4 : 4 ≤ input.length)
    (hbad : parsePayload ((input.drop 4).take (unpackU32 (input.take 4))) = none) :
    decodeFrame input = .malformedPayload ∧ readLoop input = ([], .fatal .decodeError) := by
  have hdf : decodeFrame input = .malformedPayload := by
    rw [decodeFrame, if_neg (by omega), if_neg (by omega), hbad]
  exact ⟨hdf, readLoop_malformed hdf⟩

/-- Witness for C5: a frame with an invalid UTF-8 payload byte `0xFF`,
followed by a fully valid `HOST_READY` frame that is never attempted. -/
theorem c5_witness :
    decodeFrame [1, 0, 0, 0, 255, 22, 0, 0, 0, 123, 34, 116, 121, 112, 101, 34, 58, 32, 34, 72,
      79, 83, 84, 95, 82, 69, 65, 68, 89, 34, 125] = .malformedPayload ∧
    readLoop [1, 0, 0, 0, 255, 22, 0, 0, 0, 123, 34, 116, 121, 112, 101, 34, 58, 32, 34, 72, 79,
      83, 84, 95, 82, 69, 65, 68, 89, 34, 125] = ([], .fatal .decodeError) :=
  c5_malformed_payload_aborts _ (by decide)
    (by simp [parsePayload, utf8Decode, utf8DecodeMB, unpackU32])

/-- C9: a stream that closes mid-length, after one to three bytes, is a fatal
`struct.unpack` failure that aborts the loop — not `EndOfStream`, which arises
only for a zero-byte read. -/
theorem c9_partial_length_fatal (input : List Nat) (h1 : 1 ≤ input.length)
    (h3 : input.length ≤ 3) :
    decodeFrame input = .badLenBytes ∧ readLoop input = ([], .fatal .structError) ∧
      decodeFrame input ≠ .endOfStream := by
  have hdf : decodeFrame input = .badLenBytes := by
    rw [decodeFrame, if_neg (by omega), if_pos (by omega)]
  refine ⟨hdf, readLoop_badLen hdf, ?_⟩
  rw [hdf]
  intro hcontra
  cases hcontra

/-- Witness for C9 at a single stray byte. -/
theorem c9_witness :
    decodeFrame [7] = .badLenBytes ∧ readLoop [7] = ([], .fatal .structError) ∧
      decodeFrame [7] ≠ .endOfStream :=
  c9_partial_length_fatal [7] (by decide) (by decide)

/-- C3 counterexample: a length prefix declaring 10 bytes followed by only the
two bytes of `{}` is decoded successfully — the code performs no length
validation, so a truncated frame whose available bytes happen to be valid
UTF-8 JSON does not fail. -/
theorem c3_counterexample :
    unpackU32 (List.take 4 [10, 0, 0, 0, 123, 125]) = 10 ∧
      (List.drop 4 [10, 0, 0, 0, 123, 125]).length < 10 ∧
      decodeFrame [10, 0, 0, 0, 123, 125] = .ok (.obj []) [] := by
  refine ⟨by decide, by decide, ?_⟩
  simp [decodeFrame, parsePayload, utf8Decode, utf8DecodeMB, loads, parseValue, skipWs, isWs,
    unpackU32, startsNum, isDigit,
    (show Char.ofNat 123 = '{' from by decide), (show Char.ofNat 125 = '}' from by decide)]

/-- C3 as amended: on a stream whose prefix declares more payload bytes than
remain, the decoder fails — fatally, aborting the loop — exactly when the
bytes that are available do not themselves form valid UTF-8 JSON; when they
do, the truncated frame is decoded successfully as if it were complete. -/
theorem c3_truncated_frame (input : List Nat) (h4 : 4 ≤ input.length)
    (htr : input.length - 4 < unpackU32 (input.take 4)) :
    (parsePayload (input.drop 4) = none →
      decodeFrame input = .malformedPayload ∧ readLoop input = ([], .fatal .decodeError)) ∧
    (∀ v, parsePayload (input.drop 4) = some v → decodeFrame input = .ok v []) := by
  have hle : (input.drop 4).length ≤ unpackU32 (input.take 4) := by
    simp only [List.length_drop]
    omega
  have htake : (input.drop 4).take (unpackU32 (input.take 4)) = input.drop 4 :=
    List.take_of_length_le hle
  have hdrop : (input.drop 4).drop (unpackU32 (input.take 4)) = [] :=
    List.drop_eq_nil_of_le hle
  constructor
  · intro hnone
    have hdf : decodeFrame input = .malformedPayload := by
      rw [decodeFrame, if_neg (by omega), if_neg (by omega), htake, hnone]
    exact ⟨hdf, readLoop_malformed hdf⟩
  · intro v hv
    rw [decodeFrame, if_neg (by omega), if_neg (by omega), htake, hv, hdrop]

/-- Witness for C3 as amended: prefix 10 with a single invalid byte available. -/
theorem c3_witness :
    decodeFrame [10, 0, 0, 0, 255] = .malformedPayload ∧
      readLoop [10, 0, 0, 0, 255] = ([], .fatal .decodeError) :=
  (c3_truncated_frame [10, 0, 0, 0, 255] (by decide) (by decide)).1
    (by simp [parsePayload, utf8Decode, utf8DecodeMB])

/-- C6: every frame `encode` emits is the 4-byte length followed by the UTF-8
JSON payload, and the value packed into those 4 bytes is exactly the payload's
byte length. -/
theorem c6_frame_layout (v : Json) (bs : List Nat) (henc : sendMessage v = some bs) :
    bs = packU32 (utf8Encode (dumps v)).length ++ utf8Encode (dumps v) ∧
      unpackU32 (bs.take 4) = (utf8Encode (dumps v)).length := by
  obtain ⟨hbs, hlt⟩ := sendMessage_some henc
  subst hbs
  have hpack : (packU32 (utf8Encode (dumps v)).length).length = 4 := rfl
  refine ⟨rfl, ?_⟩
  rw [show (packU32 (utf8Encode (dumps v)).length ++ utf8Encode (dumps v)).take 4
      = packU32 (utf8Encode (dumps v)).length from by rw [← hpack, List.take_left]]
  exact unpackU32_packU32 hlt

/-- Witness for C6 at the `HOST_READY` message. -/
theorem c6_witness :
    ([22, 0, 0, 0, 123, 34, 116, 121, 112, 101, 34, 58, 32, 34, 72, 79, 83, 84, 95, 82, 69, 65,
        68, 89, 34, 125] : List Nat)
      = packU32 (utf8Encode (dumps hostReady)).length ++ utf8Encode (dumps hostReady) ∧
    unpackU32 (([22, 0, 0, 0, 123, 34, 116, 121, 112, 101, 34, 58, 32, 34, 72, 79, 83, 84, 95,
        82, 69, 65, 68, 89, 34, 125] : List Nat).take 4)
      = (utf8Encode (dumps hostReady)).length :=
  c6_frame_layout hostReady _ sendMessage_hostReady_eq

/-- C7: encoding `{"type": "HOST_READY"}` gives the 4-byte prefix holding 22 —
the byte length of the serialized text — followed by exactly those 22 payload
bytes, and decoding that byte sequence yields the value back. -/
theorem c7_host_ready_end_to_end :
    sendMessage hostReady
      = some ([22, 0, 0, 0] ++ [123, 34, 116, 121, 112, 101, 34, 58, 32, 34, 72, 79, 83, 84, 95,
          82, 69, 65, 68, 89, 34, 125]) ∧
    ([123, 34, 116, 121, 112, 101, 34, 58, 32, 34, 72, 79, 83, 84, 95, 82, 69, 65, 68, 89, 34,
        125] : List Nat).length = 22 ∧
    packU32 22 = [22, 0, 0, 0] ∧
    decodeFrame ([22, 0, 0, 0] ++ [123, 34, 116, 121, 112, 101, 34, 58, 32, 34, 72, 79, 83, 84,
        95, 82, 69, 65, 68, 89, 34, 125]) = .ok hostReady [] := by
  refine ⟨sendMessage_hostReady_eq, by decide, by decide, ?_⟩
  exact decodeFrame_sendMessage hostReady_wellFormed sendMessage_hostReady_eq

/-- C8: encoding is deterministic — the same value always yields the same byte
sequence. -/
theorem c8_encode_deterministic (v : Json) : sendMessage v = sendMessage v := rfl

/-- C10 counterexample: the request `42` is decoded successfully, but
`data.get("id")` raises `AttributeError` on a non-dict, so the loop aborts and
no reply carrying `"success": true` is ever sent. -/
theorem c10_counterexample :
    decodeFrame [2, 0, 0, 0, 52, 50] = .ok (.num 42) [] ∧
      readLoop [2, 0, 0, 0, 52, 50] = ([], .fatal .attributeError) := by
  have hdf : decodeFrame [2, 0, 0, 0, 52, 50] = .ok (.num 42) [] := by
    simp [decodeFrame, parsePayload, utf8Decode, loads, parseValue, parseNum, parseUInt, skipWs,
      takeDigits, startsFrac, startsExp, isDigit, isWs, digitsVal, startsNum, unpackU32]
  refine ⟨hdf, ?_⟩
  rw [readLoop]
  rw [show ([2, 0, 0, 0, 52, 50] : List Nat).length + 1 = 6 + 1 from rfl]
  rw [readLoopF, hdf]
  rfl

/-- C10 as amended: a request that decodes to a JSON object is answered with
exactly `{"id": <the request's "id" value, or null when absent>, "success":
true}`; a successfully decoded non-object request instead aborts the loop with
no reply, as the counterexample shows. -/
theorem c10_object_requests_reply (fuel : Nat) (input : List Nat)
    (kvs : List (List Char × Json)) (rest : List Nat)
    (h : decodeFrame input = .ok (.obj kvs) rest) :
    (readLoopF (fuel + 1) input).1
      = .obj [(['i', 'd'], (dictGet kvs ['i', 'd']).getD .null),
          (['s', 'u', 'c', 'c', 'e', 's', 's'], .bool true)] :: (readLoopF fuel rest).1 := by
  rw [readLoopF, h]
  rfl

/-- Witness for C10 as amended at the request `{"id": 42}`: the reply is
`{"id": 42, "success": true}`. -/
theorem c10_witness :
    (readLoopF 1 [10, 0, 0, 0, 123, 34, 105, 100, 34, 58, 32, 52, 50, 125]).1
      = [.obj [(['i', 'd'], .num 42), (['s', 'u', 'c', 'c', 'e', 's', 's'], .bool true)]] := by
  have hwf : WellFormed (.obj [(['i', 'd'], Json.num 42)]) := by
    refine .obj _ (by simp) ?_
    intro kv hkv
    rcases List.mem_cons.mp hkv with rfl | hkv
    · exact .num _
    · exact absurd hkv (List.not_mem_nil kv)
  have henc : sendMessage (.obj [(['i', 'd'], Json.num 42)])
      = some [10, 0, 0, 0, 123, 34, 105, 100, 34, 58, 32, 52, 50, 125] := by
    simp [sendMessage, dumps, dumpsMembers, dumpsStr, escapeChar, utf8Encode, utf8EncodeChar,
      packU32, intToChars, natToChars, natDigitsRev, digitChar]
  have hdf := decodeFrame_sendMessage hwf henc
  have h := c10_object_requests_reply 0 [10, 0, 0, 0, 123, 34, 105, 100, 34, 58, 32, 52, 50, 125]
    [(['i', 'd'], Json.num 42)] [] hdf
  rw [h]
  simp [dictGet, readLoopF]
